import Mathlib

/-!
Shallow embedding of the conversation-state logic of `app.py` from the
ELYZA-japanese-Llama-2-13b-instruct chat demo, together with proofs about the
reconciliation algorithm (`assign_uuid`), the input validation
(`check_input_token_length`), the audit-record construction (`output_log`),
the streaming update (`generate`) and the submit event pipeline.

Conventions of the embedding:
* a chatbot history entry `tuple[str, str]` is a `Turn = String × String`
  of user message and assistant message; the empty string denotes a missing
  assistant response;
* a `uuid_list` entry is an `IdPair = String × String` of user id and
  assistant id; the empty string denotes a missing assistant id;
* the nondeterministic `str(uuid.uuid4())` is modelled by a generator
  `gen : Nat → String` together with a counter that advances by one on every
  draw, threaded through the functions that allocate ids;
* Python loops become structural recursion, unguarded indexing becomes
  `Option`, and a raised `gr.Error` becomes `Except.error`.
-/

/-- Turns are pairs `(user_message, assistant_message)`, as in the
`list[tuple[str, str]]` chatbot history of `app.py`. -/
abbrev Turn := String × String

/-- Identity pairs are `(user_id, assistant_id)` strings; the empty string
denotes a missing assistant id. -/
abbrev IdPair := String × String

/-- Cap on `max_new_tokens`, from `app.py`. -/
def MAX_MAX_NEW_TOKENS : Nat := 2048

/-- Cap on the input token length, from `app.py`. -/
def MAX_INPUT_TOKEN_LENGTH : Nat := 4000

/-- The two `gr.Error` conditions raised by `check_input_token_length`. -/
inductive GrError where
  | tooLong : GrError
  | emptyInput : GrError
deriving DecidableEq, Repr

/-- Embedding of `clear_and_save_textbox` from `app.py`: empties the textbox
and saves the message. -/
def clear_and_save_textbox (message : String) : String × String :=
  ("", message)

/-- Embedding of `display_input` from `app.py`: appends `(message, "")` to the
history. -/
def display_input (message : String) (history : List Turn) : List Turn :=
  history ++ [(message, "")]

/-- Embedding of `check_input_token_length` from `app.py`.  The external token
counter `get_input_token_length` (imported from `model_vllm`, an external
collaborator) is passed as a function argument. -/
def check_input_token_length (get_input_token_length : String → List Turn → String → Nat)
    (message : String) (chat_history : List Turn) (system_prompt : String) :
    Except GrError Unit :=
  let input_token_length := get_input_token_length message chat_history system_prompt
  if input_token_length > MAX_INPUT_TOKEN_LENGTH then Except.error GrError.tooLong
  else if message.length ≤ 0 then Except.error GrError.emptyInput
  else Except.ok ()

/-- Loop of the `len_history > len_uuid_list` branch of `assign_uuid` in
`app.py`: for each turn of `history[len_uuid_list:]`, append `(uuid4(), "")`
when the turn is awaiting its response and `(uuid4(), uuid4())` otherwise. -/
def assign_uuid_grow (gen : Nat → String) :
    List Turn → List IdPair → Nat → List IdPair × Nat
  | [], acc, k => (acc, k)
  | t :: rest, acc, k =>
    if t.2 = "" then assign_uuid_grow gen rest (acc ++ [(gen k, "")]) (k + 1)
    else assign_uuid_grow gen rest (acc ++ [(gen k, gen (k + 1))]) (k + 2)

/-- Loop of the `len_history == len_uuid_list` branch of `assign_uuid` in
`app.py`: scan `zip(history, uuid_list)`; on a completeness mismatch the
source pops the last element of the working list (`new_uuid_list.pop()`) and
appends the replacement pair at the end. -/
def assign_uuid_fix (gen : Nat → String) :
    List (Turn × IdPair) → List IdPair → Nat → List IdPair × Nat
  | [], acc, k => (acc, k)
  | tu :: rest, acc, k =>
    if tu.1.2 ≠ "" ∧ tu.2.2 = "" then
      assign_uuid_fix gen rest (acc.dropLast ++ [(tu.2.1, gen k)]) (k + 1)
    else if tu.1.2 = "" ∧ tu.2.2 ≠ "" then
      assign_uuid_fix gen rest (acc.dropLast ++ [(tu.2.1, "")]) k
    else assign_uuid_fix gen rest acc k

/-- Embedding of `assign_uuid` from `app.py`, the identity-list reconciler. -/
def assign_uuid (gen : Nat → String) (history : List Turn) (uuid_list : List IdPair)
    (k : Nat) : List IdPair × Nat :=
  let len_history := history.length
  let len_uuid_list := uuid_list.length
  if len_history > len_uuid_list then
    assign_uuid_grow gen (history.drop len_uuid_list) uuid_list k
  else if len_history < len_uuid_list then
    (uuid_list.take len_history, k)
  else
    assign_uuid_fix gen (history.zip uuid_list) uuid_list k

/-- Shape of the audit record built by `output_log` in `app.py` (without the
timestamp, which only feeds the S3 object key and the `created_at` column). -/
structure AuditRecord where
  tree_uuid : String
  parent_uuid : String
  record_uuid : String
  role : String
  message : String
deriving DecidableEq, Repr

/-- Embedding of the record construction of `output_log` from `app.py`.
Unguarded Python indexing (`uuid_list[0]`, `history[-1]`, `uuid_list[-1]`,
`uuid_list[-2]`) is modelled by `Option`, `none` standing for an
`IndexError`.  The S3 upload is best effort (exceptions are swallowed) and
changes no session state, so only the record shape is modelled. -/
def output_log (history : List Turn) (uuid_list : List IdPair) : Option AuditRecord :=
  match uuid_list.head? with
  | none => none
  | some first_uuids =>
    match history.getLast? with
    | none => none
    | some last_messages =>
      match uuid_list.getLast? with
      | none => none
      | some last_uuids =>
        if last_uuids.2 = "" then
          if 2 ≤ history.length then
            match uuid_list.dropLast.getLast? with
            | none => none
            | some prev_uuids =>
              some ⟨first_uuids.1, prev_uuids.2, last_uuids.1, "user", last_messages.1⟩
          else
            some ⟨first_uuids.1, last_uuids.1, last_uuids.1, "user", last_messages.1⟩
        else
          some ⟨first_uuids.1, last_uuids.1, last_uuids.2, "assistant", last_messages.2⟩

/-- Embedding of `generate` from `app.py`: `responses` is the stream of
strings produced by the external `run` adapter; each yielded history is
`history_with_input[:-1] + [(message, response)]`.  A `max_new_tokens` above
the cap raises `ValueError`, modelled as `none`. -/
def generate (message : String) (history_with_input : List Turn)
    (max_new_tokens : Nat) (responses : List String) : Option (List (List Turn)) :=
  if max_new_tokens > MAX_MAX_NEW_TOKENS then none
  else
    some (responses.map fun response =>
      history_with_input.dropLast ++ [(message, response)])

/-- Specification-side transformation for the streaming-update claim: replace
only the last turn's assistant message, keeping everything else. -/
def replace_last_assistant (l : List Turn) (response : String) : List Turn :=
  l.dropLast ++ (l.getLast?.map fun t => (t.1, response)).toList

/-- Embedding of the `textbox.submit` event chain of `app.py`:
`clear_and_save_textbox`, then `check_input_token_length`, then — gated by
`.success`, so skipped when validation raises — `display_input`,
`assign_uuid`, `output_log`, `generate`, `assign_uuid`, `output_log`.  The
generation adapter is abstracted by `respond`, giving the final streamed
response for a message and a chat history; the audit upload changes no
session state.  The result is
`(textbox, saved_input, chatbot history, uuid_list, counter)`. -/
def submit_pipeline (get_input_token_length : String → List Turn → String → Nat)
    (respond : String → List Turn → String) (gen : Nat → String)
    (system_prompt textbox : String) (history : List Turn) (uuid_list : List IdPair)
    (k : Nat) : String × String × List Turn × List IdPair × Nat :=
  let cs := clear_and_save_textbox textbox
  match check_input_token_length get_input_token_length cs.2 history system_prompt with
  | Except.error _ => (cs.1, cs.2, history, uuid_list, k)
  | Except.ok _ =>
    let history1 := display_input cs.2 history
    let u1 := assign_uuid gen history1 uuid_list k
    let history2 := history1.dropLast ++ [(cs.2, respond cs.2 history1.dropLast)]
    let u2 := assign_uuid gen history2 u1.1 u1.2
    (cs.1, cs.2, history2, u2.1, u2.2)

/-- The reconciliation invariant of the specification: the identity list has
the length of the turn list and, positionwise, the assistant id is empty
exactly when the assistant message is empty. -/
def ReconcileInvariant (history : List Turn) (uuid_list : List IdPair) : Prop :=
  uuid_list.length = history.length ∧
    ∀ i : Nat, ∀ t : Turn, ∀ u : IdPair,
      history[i]? = some t → uuid_list[i]? = some u → ((u.2 = "") ↔ (t.2 = ""))

/-- Deterministic stand-in for the uuid4 generator, used in concrete
counterexamples and witnesses. -/
def demo_gen : Nat → String := fun n => toString n

/-- Agreement precondition under which `assign_uuid` re-establishes the
reconciliation invariant: at every position present in both lists — except
the final position of the history when the two lengths coincide, which the
equal-length branch of `assign_uuid` repairs — the assistant id is already
empty exactly when the assistant message is.  Every pipeline state of
`app.py` satisfies this, since the identity list was reconciled against a
history differing only by an append, a pop, or an edit of the last turn. -/
def AgreesExceptLast (history : List Turn) (uuid_list : List IdPair) : Prop :=
  ∀ (i : Nat) (t : Turn) (u : IdPair), history[i]? = some t → uuid_list[i]? = some u →
    (uuid_list.length = history.length → i + 1 ≠ history.length) →
    ((u.2 = "") ↔ (t.2 = ""))

/-- Pairs appended by the growing branch of `assign_uuid`, starting from
counter `k`. -/
def grow_entries (gen : Nat → String) : List Turn → Nat → List IdPair
  | [], _ => []
  | t :: rest, k =>
    if t.2 = "" then (gen k, "") :: grow_entries gen rest (k + 1)
    else (gen k, gen (k + 1)) :: grow_entries gen rest (k + 2)

lemma assign_uuid_grow_eq (gen : Nat → String) :
    ∀ (ts : List Turn) (acc : List IdPair) (k : Nat),
      (assign_uuid_grow gen ts acc k).1 = acc ++ grow_entries gen ts k
  | [], acc, k => by simp [assign_uuid_grow, grow_entries]
  | t :: rest, acc, k => by
    by_cases h : t.2 = "" <;>
      simp [assign_uuid_grow, grow_entries, h, assign_uuid_grow_eq gen rest]

lemma grow_entries_invariant (gen : Nat → String) (hgen : ∀ n, gen n ≠ "") :
    ∀ (ts : List Turn) (k : Nat), ReconcileInvariant ts (grow_entries gen ts k) := by
  intro ts
  induction ts with
  | nil =>
    intro k
    exact ⟨rfl, by intro i t u ht hu; simp at ht⟩
  | cons t rest ih =>
    intro k
    constructor
    · by_cases h : t.2 = "" <;> simp [grow_entries, h, (ih _).1]
    · intro i tt u htt hu
      by_cases h : t.2 = ""
      · simp only [grow_entries, if_pos h] at hu
        match i with
        | 0 =>
          simp only [List.getElem?_cons_zero, Option.some.injEq] at htt hu
          subst htt
          subst hu
          simpa using h
        | i + 1 =>
          simp only [List.getElem?_cons_succ] at htt hu
          exact (ih (k + 1)).2 i tt u htt hu
      · simp only [grow_entries, if_neg h] at hu
        match i with
        | 0 =>
          simp only [List.getElem?_cons_zero, Option.some.injEq] at htt hu
          subst htt
          subst hu
          constructor
          · intro hg
            exact absurd hg (hgen (k + 1))
          · intro ht2
            exact absurd ht2 h
        | i + 1 =>
          simp only [List.getElem?_cons_succ] at htt hu
          exact (ih (k + 2)).2 i tt u htt hu

lemma ReconcileInvariant.append {h₁ h₂ : List Turn} {l₁ l₂ : List IdPair}
    (a : ReconcileInvariant h₁ l₁) (b : ReconcileInvariant h₂ l₂) :
    ReconcileInvariant (h₁ ++ h₂) (l₁ ++ l₂) := by
  obtain ⟨alen, apos⟩ := a
  obtain ⟨blen, bpos⟩ := b
  refine ⟨by simp [alen, blen], ?_⟩
  intro i t u ht hu
  rw [List.getElem?_append] at ht hu
  by_cases hi : i < h₁.length
  · rw [if_pos hi] at ht
    rw [if_pos (by omega : i < l₁.length)] at hu
    exact apos i t u ht hu
  · rw [if_neg hi] at ht
    rw [if_neg (by omega : ¬ i < l₁.length)] at hu
    rw [alen] at hu
    exact bpos (i - h₁.length) t u ht hu

lemma invariant_zip_mem {h : List Turn} {l : List IdPair}
    (hpos : ∀ (i : Nat) (t : Turn) (u : IdPair), h[i]? = some t → l[i]? = some u →
      ((u.2 = "") ↔ (t.2 = ""))) :
    ∀ tu ∈ h.zip l, ((tu.2.2 = "") ↔ (tu.1.2 = "")) := by
  intro tu hmem
  obtain ⟨n, hn⟩ := List.mem_iff_getElem?.mp hmem
  rw [List.getElem?_zip_eq_some] at hn
  exact hpos n tu.1 tu.2 hn.1 hn.2

lemma assign_uuid_fix_skip (gen : Nat → String) :
    ∀ (front rest : List (Turn × IdPair)) (acc : List IdPair) (k : Nat),
      (∀ tu ∈ front, ((tu.2.2 = "") ↔ (tu.1.2 = ""))) →
      assign_uuid_fix gen (front ++ rest) acc k = assign_uuid_fix gen rest acc k := by
  intro front
  induction front with
  | nil => intro rest acc k _; simp
  | cons tu front ih =>
    intro rest acc k hf
    have h1 := hf tu (by simp)
    have hcond1 : ¬ (tu.1.2 ≠ "" ∧ tu.2.2 = "") := by tauto
    have hcond2 : ¬ (tu.1.2 = "" ∧ tu.2.2 ≠ "") := by tauto
    rw [List.cons_append]
    simp only [assign_uuid_fix, if_neg hcond1, if_neg hcond2]
    exact ih rest acc k (fun x hx => hf x (by simp [hx]))

lemma assign_uuid_eq_grow (gen : Nat → String) (k : Nat) (history : List Turn)
    (uuid_list : List IdPair) (h : uuid_list.length < history.length) :
    assign_uuid gen history uuid_list k =
      assign_uuid_grow gen (history.drop uuid_list.length) uuid_list k := by
  simp only [assign_uuid]
  rw [if_pos (by omega)]

lemma assign_uuid_eq_take (gen : Nat → String) (k : Nat) (history : List Turn)
    (uuid_list : List IdPair) (h : history.length < uuid_list.length) :
    assign_uuid gen history uuid_list k = (uuid_list.take history.length, k) := by
  simp only [assign_uuid]
  rw [if_neg (by omega), if_pos (by omega)]

lemma assign_uuid_eq_fix (gen : Nat → String) (k : Nat) (history : List Turn)
    (uuid_list : List IdPair) (hlen : uuid_list.length = history.length) :
    assign_uuid gen history uuid_list k =
      assign_uuid_fix gen (history.zip uuid_list) uuid_list k := by
  simp only [assign_uuid]
  rw [if_neg (by omega), if_neg (by omega)]

lemma assign_uuid_eq_last (gen : Nat → String) (k : Nat) (hf : List Turn)
    (lf : List IdPair) (t : Turn) (u : IdPair)
    (hlen : lf.length = hf.length)
    (hagree : ∀ tu ∈ hf.zip lf, ((tu.2.2 = "") ↔ (tu.1.2 = ""))) :
    assign_uuid gen (hf ++ [t]) (lf ++ [u]) k =
      if t.2 ≠ "" ∧ u.2 = "" then (lf ++ [(u.1, gen k)], k + 1)
      else if t.2 = "" ∧ u.2 ≠ "" then (lf ++ [(u.1, "")], k)
      else (lf ++ [u], k) := by
  rw [assign_uuid_eq_fix gen k _ _ (by simp [hlen])]
  rw [List.zip_append (by simpa using hlen.symm)]
  rw [assign_uuid_fix_skip gen (hf.zip lf) _ _ k hagree]
  by_cases ht : t.2 = "" <;> by_cases hu : u.2 = "" <;>
    simp [assign_uuid_fix, ht, hu, List.dropLast_concat]

lemma assign_uuid_noop (gen : Nat → String) (k : Nat) (history : List Turn)
    (uuid_list : List IdPair) (hinv : ReconcileInvariant history uuid_list) :
    assign_uuid gen history uuid_list k = (uuid_list, k) := by
  obtain ⟨hlen, hpos⟩ := hinv
  rw [assign_uuid_eq_fix gen k _ _ hlen]
  have hs := assign_uuid_fix_skip gen (history.zip uuid_list) [] uuid_list k
    (invariant_zip_mem hpos)
  rw [List.append_nil] at hs
  rw [hs]
  simp [assign_uuid_fix]

lemma assign_uuid_invariant (gen : Nat → String) (k : Nat) (history : List Turn)
    (uuid_list : List IdPair) (hgen : ∀ n, gen n ≠ "")
    (hpre : AgreesExceptLast history uuid_list) :
    ReconcileInvariant history (assign_uuid gen history uuid_list k).1 := by
  rcases Nat.lt_trichotomy uuid_list.length history.length with hlt | heq | hgt
  · rw [assign_uuid_eq_grow gen k _ _ hlt, assign_uuid_grow_eq]
    have hfront : ReconcileInvariant (history.take uuid_list.length) uuid_list := by
      refine ⟨by simp [Nat.min_eq_left (Nat.le_of_lt hlt)], ?_⟩
      intro i t u ht hu
      have hi : i < uuid_list.length := by
        have h2 := (List.getElem?_eq_some_iff.mp ht).1
        have h3 : i < uuid_list.length ∧ i < history.length := by
          simpa [Nat.lt_min] using h2
        exact h3.1
      rw [List.getElem?_take_of_lt hi] at ht
      exact hpre i t u ht hu (fun hc => by omega)
    have hrest := grow_entries_invariant gen hgen (history.drop uuid_list.length) k
    have hall := hfront.append hrest
    rwa [List.take_append_drop] at hall
  · rcases List.eq_nil_or_concat history with hnil | ⟨hf, t, hh⟩
    · subst hnil
      have hl : uuid_list = [] := List.eq_nil_of_length_eq_zero heq
      subst hl
      exact ⟨by simp [assign_uuid, assign_uuid_fix], by
        intro i t u ht hu; simp at ht⟩
    · rw [List.concat_eq_append] at hh
      subst hh
      have hlne : uuid_list ≠ [] := by
        intro hl
        rw [hl] at heq
        simp at heq
      obtain ⟨lf, u, hl⟩ := (List.eq_nil_or_concat uuid_list).resolve_left hlne
      rw [List.concat_eq_append] at hl
      subst hl
      have hlen : lf.length = hf.length := by
        simp only [List.length_append, List.length_cons, List.length_nil] at heq
        omega
      have hfrontpos : ∀ (i : Nat) (t2 : Turn) (u2 : IdPair), hf[i]? = some t2 →
          lf[i]? = some u2 → ((u2.2 = "") ↔ (t2.2 = "")) := by
        intro i t2 u2 ht2 hu2
        have hi : i < hf.length := (List.getElem?_eq_some_iff.mp ht2).1
        have ht3 : (hf ++ [t])[i]? = some t2 := by
          rw [List.getElem?_append_left hi]; exact ht2
        have hu3 : (lf ++ [u])[i]? = some u2 := by
          rw [List.getElem?_append_left (by omega)]; exact hu2
        refine hpre i t2 u2 ht3 hu3 (fun _ => ?_)
        simp only [List.length_append, List.length_cons, List.length_nil]
        omega
      rw [assign_uuid_eq_last gen k hf lf t u hlen (invariant_zip_mem hfrontpos)]
      have hfront : ReconcileInvariant hf lf := ⟨hlen, hfrontpos⟩
      by_cases h1 : t.2 ≠ "" ∧ u.2 = ""
      · rw [if_pos h1]
        refine hfront.append ⟨rfl, ?_⟩
        intro i t2 u2 ht2 hu2
        match i with
        | 0 =>
          simp only [List.getElem?_cons_zero, Option.some.injEq] at ht2 hu2
          subst ht2
          subst hu2
          exact ⟨fun hg => absurd hg (hgen k), fun h2 => absurd h2 h1.1⟩
        | i + 1 => simp at ht2
      · rw [if_neg h1]
        by_cases h2 : t.2 = "" ∧ u.2 ≠ ""
        · rw [if_pos h2]
          refine hfront.append ⟨rfl, ?_⟩
          intro i t2 u2 ht2 hu2
          match i with
          | 0 =>
            simp only [List.getElem?_cons_zero, Option.some.injEq] at ht2 hu2
            subst ht2
            subst hu2
            exact ⟨fun _ => h2.1, fun _ => rfl⟩
          | i + 1 => simp at ht2
        · rw [if_neg h2]
          refine hfront.append ⟨rfl, ?_⟩
          intro i t2 u2 ht2 hu2
          match i with
          | 0 =>
            simp only [List.getElem?_cons_zero, Option.some.injEq] at ht2 hu2
            subst ht2
            subst hu2
            constructor
            · intro hu4
              by_contra ht4
              exact h1 ⟨ht4, hu4⟩
            · intro ht4
              by_contra hu4
              exact h2 ⟨ht4, hu4⟩
          | i + 1 => simp at ht2
  · rw [assign_uuid_eq_take gen k _ _ hgt]
    refine ⟨by simp [Nat.min_eq_left (Nat.le_of_lt hgt)], ?_⟩
    intro i t u ht hu
    have hi : i < history.length := (List.getElem?_eq_some_iff.mp ht).1
    rw [List.getElem?_take_of_lt hi] at hu
    exact hpre i t u ht hu (fun hc => by omega)

lemma ReconcileInvariant.singleton {t : Turn} {u : IdPair}
    (h : (u.2 = "") ↔ (t.2 = "")) : ReconcileInvariant [t] [u] := by
  refine ⟨rfl, ?_⟩
  intro i t2 u2 ht hu
  match i with
  | 0 =>
    simp only [List.getElem?_cons_zero, Option.some.injEq] at ht hu
    subst ht
    subst hu
    exact h
  | i + 1 => simp at ht

/-- C1 (amended): whenever the incoming identity list agrees in completeness
with the turn list at every common position — except possibly the final
position when the two lengths coincide, which the equal-length branch
repairs — and fresh ids are non-empty, the identity list returned by
`assign_uuid` has the same length as the turn list and, for every position,
its assistant id is empty exactly when that turn's assistant message is
empty. -/
theorem reconcile_establishes_invariant (gen : Nat → String) (k : Nat)
    (history : List Turn) (uuid_list : List IdPair) (hgen : ∀ n, gen n ≠ "")
    (hpre : AgreesExceptLast history uuid_list) :
    ReconcileInvariant history (assign_uuid gen history uuid_list k).1 :=
  assign_uuid_invariant gen k history uuid_list hgen hpre

theorem reconcile_establishes_invariant_wit :
    ReconcileInvariant [("a", "")]
      ((assign_uuid (fun _ => "x") [("a", "")] ([] : List IdPair) 0).1) :=
  reconcile_establishes_invariant (fun _ => "x") 0 [("a", "")] []
    (fun _ => (by decide : ("x" : String) ≠ "")) (fun i t u _ hu _ => by simp at hu)

/-- C1 counterexample: with a turn list longer than the identity list, the
growing branch of `assign_uuid` never revisits the retained prefix, so a
stale pair (empty assistant id against a completed turn) survives
reconciliation and the claimed invariant fails. -/
theorem reconcile_invariant_cex :
    ¬ ReconcileInvariant [("a", "A"), ("b", "")]
        ((assign_uuid demo_gen [("a", "A"), ("b", "")] [("u", "")] 0).1) := by
  intro hinv
  have h0 := hinv.2 0 ("a", "A") ("u", "") (by rfl) (by rfl)
  have hA : ("A" : String) = "" := h0.mp rfl
  exact absurd hA (by decide)

/-- C2 (amended): when the lists have equal length and completeness already
agrees at every position of the common front, `assign_uuid` replaces the
final identity pair exactly as the claim describes — existing user id kept,
fresh assistant id if the turn became complete, empty assistant id if it
became incomplete, and unchanged if completeness agrees there too — and
every other pair is left unchanged.  (At an interior disagreement the source
instead pops the last pair and appends the replacement at the end, so the
unrestricted claim fails; see the counterexample.) -/
theorem reconcile_replaces_last (gen : Nat → String) (k : Nat) (hf : List Turn)
    (lf : List IdPair) (t : Turn) (u : IdPair)
    (hlen : lf.length = hf.length)
    (hagree : ∀ (i : Nat) (t2 : Turn) (u2 : IdPair), hf[i]? = some t2 →
      lf[i]? = some u2 → ((u2.2 = "") ↔ (t2.2 = ""))) :
    assign_uuid gen (hf ++ [t]) (lf ++ [u]) k =
      if t.2 ≠ "" ∧ u.2 = "" then (lf ++ [(u.1, gen k)], k + 1)
      else if t.2 = "" ∧ u.2 ≠ "" then (lf ++ [(u.1, "")], k)
      else (lf ++ [u], k) :=
  assign_uuid_eq_last gen k hf lf t u hlen (invariant_zip_mem hagree)

theorem reconcile_replaces_last_wit :
    assign_uuid (fun _ => "x") [("m", "hi")] [("u", "")] 5 = ([("u", "x")], 6) := by
  have h := reconcile_replaces_last (fun _ => "x") 5 [] [] ("m", "hi") ("u", "") rfl
    (fun i t2 u2 ht2 _ => by simp at ht2)
  simpa using h

/-- C2 counterexample: with a completeness disagreement at interior position
0 (turn `("a", "A")` complete, pair `("u1", "")` incomplete), the source pops
the LAST pair and appends the replacement at the end, so position 1 — whose
completeness agreed with its turn — is not left unchanged. -/
theorem reconcile_positional_cex :
    (("B" : String) ≠ "" ∧ ("a2" : String) ≠ "") ∧
      ((assign_uuid demo_gen [("a", "A"), ("b", "B")]
          [("u1", ""), ("u2", "a2")] 0).1)[1]? ≠ some ("u2", "a2") := by decide

/-- C3 (amended): under the same precondition as the invariant theorem —
agreement at every common position except possibly the final one when
lengths coincide, and non-empty fresh ids — reconciliation is idempotent:
a second `assign_uuid` call on the result returns it unchanged (and draws no
fresh ids). -/
theorem reconcile_idempotent (gen : Nat → String) (k k2 : Nat)
    (history : List Turn) (uuid_list : List IdPair) (hgen : ∀ n, gen n ≠ "")
    (hpre : AgreesExceptLast history uuid_list) :
    assign_uuid gen history ((assign_uuid gen history uuid_list k).1) k2 =
      ((assign_uuid gen history uuid_list k).1, k2) :=
  assign_uuid_noop gen k2 history _
    (assign_uuid_invariant gen k history uuid_list hgen hpre)

theorem reconcile_idempotent_wit :
    assign_uuid (fun _ => "x") [("a", "")]
        ((assign_uuid (fun _ => "x") [("a", "")] ([] : List IdPair) 0).1) 7 =
      ((assign_uuid (fun _ => "x") [("a", "")] ([] : List IdPair) 0).1, 7) :=
  reconcile_idempotent (fun _ => "x") 0 7 [("a", "")] []
    (fun _ => (by decide : ("x" : String) ≠ "")) (fun i t u _ hu _ => by simp at hu)

/-- C3 counterexample: starting from a state that violates the invariant at
an interior position, the first `assign_uuid` call does not repair it, and a
second call with no intervening turn-list mutation changes the identity list
again, so reconciliation is not idempotent in general. -/
theorem reconcile_idempotent_cex :
    (assign_uuid demo_gen [("a", "A"), ("b", "")]
        ((assign_uuid demo_gen [("a", "A"), ("b", "")] [("u", "")] 0).1)
        ((assign_uuid demo_gen [("a", "A"), ("b", "")] [("u", "")] 0).2)).1 ≠
      (assign_uuid demo_gen [("a", "A"), ("b", "")] [("u", "")] 0).1 := by decide

/-- C7: across a streaming update sequence — the last turn's assistant
message first turns from empty to non-empty, then keeps being replaced by
non-empty partial strings — starting from a reconciled state, `assign_uuid`
keeps every user id in place, allocates exactly one fresh assistant id at
the first transition (the counter advances once), and any later call of the
sequence returns the identity list unchanged and draws no fresh id. -/
theorem reconcile_streaming_stable (gen : Nat → String) (k k2 : Nat)
    (h0 : List Turn) (l : List IdPair) (m s t : String)
    (hgen : ∀ n, gen n ≠ "") (hs : s ≠ "") (ht : t ≠ "")
    (hinv : ReconcileInvariant (h0 ++ [(m, "")]) l) :
    assign_uuid gen (h0 ++ [(m, s)]) l k =
        (l.dropLast ++ [((l.getLastD ("", "")).1, gen k)], k + 1) ∧
      (l.dropLast ++ [((l.getLastD ("", "")).1, gen k)]).map Prod.fst =
        l.map Prod.fst ∧
      assign_uuid gen (h0 ++ [(m, t)])
          (l.dropLast ++ [((l.getLastD ("", "")).1, gen k)]) k2 =
        (l.dropLast ++ [((l.getLastD ("", "")).1, gen k)], k2) := by
  obtain ⟨hlen, hpos⟩ := hinv
  have hlen2 : l.length = h0.length + 1 := by simpa using hlen
  have hlne : l ≠ [] := by
    intro h
    rw [h] at hlen2
    simp at hlen2
  obtain ⟨lf, u, hl⟩ := (List.eq_nil_or_concat l).resolve_left hlne
  rw [List.concat_eq_append] at hl
  subst hl
  have hflen : lf.length = h0.length := by
    simp only [List.length_append, List.length_cons, List.length_nil] at hlen2
    omega
  have hu2 : u.2 = "" := by
    have h1 : (h0 ++ [(m, "")])[h0.length]? = some (m, "") :=
      List.getElem?_concat_length h0 (m, "")
    have h2 : (lf ++ [u])[h0.length]? = some u := by
      rw [← hflen]
      exact List.getElem?_concat_length lf u
    exact (hpos h0.length (m, "") u h1 h2).mpr rfl
  have hfrontpos : ∀ (i : Nat) (t2 : Turn) (u2 : IdPair), h0[i]? = some t2 →
      lf[i]? = some u2 → ((u2.2 = "") ↔ (t2.2 = "")) := by
    intro i t2 u2 ht2 hv2
    have hi : i < h0.length := (List.getElem?_eq_some_iff.mp ht2).1
    have ht3 : (h0 ++ [(m, "")])[i]? = some t2 := by
      rw [List.getElem?_append_left hi]
      exact ht2
    have hv3 : (lf ++ [u])[i]? = some u2 := by
      rw [List.getElem?_append_left (by omega)]
      exact hv2
    exact hpos i t2 u2 ht3 hv3
  rw [List.getLastD_concat, List.dropLast_concat]
  refine ⟨?_, ?_, ?_⟩
  · rw [assign_uuid_eq_last gen k h0 lf (m, s) u hflen (invariant_zip_mem hfrontpos)]
    rw [if_pos ⟨hs, hu2⟩]
  · simp
  · apply assign_uuid_noop
    refine ReconcileInvariant.append ⟨hflen, hfrontpos⟩ (ReconcileInvariant.singleton ?_)
    constructor
    · intro hg
      exact absurd hg (hgen k)
    · intro ht4
      exact absurd ht4 ht

theorem reconcile_streaming_stable_wit :
    assign_uuid (fun _ => "x") ([] ++ [("m", "hel")]) [("u", "")] 0 =
        ([("u", "")].dropLast ++
          [(([("u", "")].getLastD ("", "")).1, (fun _ : Nat => "x") 0)], 0 + 1) ∧
      ([("u", "")].dropLast ++
          [(([("u", "")].getLastD ("", "")).1, (fun _ : Nat => "x") 0)]).map Prod.fst =
        [("u", "")].map Prod.fst ∧
      assign_uuid (fun _ => "x") ([] ++ [("m", "hello")])
          ([("u", "")].dropLast ++
            [(([("u", "")].getLastD ("", "")).1, (fun _ : Nat => "x") 0)]) 3 =
        ([("u", "")].dropLast ++
          [(([("u", "")].getLastD ("", "")).1, (fun _ : Nat => "x") 0)], 3) :=
  reconcile_streaming_stable (fun _ => "x") 0 3 [] [("u", "")] "m" "hel" "hello"
    (fun _ => (by decide : ("x" : String) ≠ "")) (by decide) (by decide)
    (ReconcileInvariant.singleton (by decide))

/-- C9: when the turn list is strictly shorter than the identity list,
`assign_uuid` returns exactly the leading prefix of the identity list of the
turn list's length, every retained pair unchanged; in particular reconciling
an empty turn list against any identity list (as Clear does) yields the
empty identity list. -/
theorem reconcile_truncates (gen : Nat → String) (k : Nat)
    (history : List Turn) (uuid_list : List IdPair) :
    (history.length < uuid_list.length →
      assign_uuid gen history uuid_list k = (uuid_list.take history.length, k)) ∧
    assign_uuid gen [] uuid_list k = ([], k) := by
  constructor
  · intro h
    exact assign_uuid_eq_take gen k history uuid_list h
  · rcases uuid_list with _ | ⟨p, rest⟩
    · simp [assign_uuid, assign_uuid_fix]
    · have h2 := assign_uuid_eq_take gen k [] (p :: rest) (by simp)
      simpa using h2

theorem reconcile_truncates_wit :
    [("a", "A")].length < [("u", "a1"), ("v", "b1")].length ∧
      assign_uuid demo_gen [("a", "A")] [("u", "a1"), ("v", "b1")] 4 =
        ([("u", "a1"), ("v", "b1")].take [("a", "A")].length, 4) :=
  ⟨by decide,
   (reconcile_truncates demo_gen 4 [("a", "A")] [("u", "a1"), ("v", "b1")]).1 (by decide)⟩

/-- C8: under the pipeline invariant that the streamed message is the user
message of the last turn (`display_input` appends `(message, "")` right
before `generate` runs), every history yielded by `generate` equals the
input turn list with only the last turn's assistant message replaced by the
partial string: the length and all earlier turns are unchanged, and each
partial replaces — rather than appends to — the previous content. -/
theorem generate_replaces_last (message : String) (hwi : List Turn)
    (mnt : Nat) (responses : List String) (hmnt : ¬ mnt > MAX_MAX_NEW_TOKENS)
    (hne : hwi ≠ []) (hlast : (hwi.getLast hne).1 = message) :
    generate message hwi mnt responses =
        some (responses.map (replace_last_assistant hwi)) ∧
      ∀ response : String,
        (replace_last_assistant hwi response).length = hwi.length ∧
        (∀ i : Nat, i + 1 < hwi.length →
          (replace_last_assistant hwi response)[i]? = hwi[i]?) ∧
        (replace_last_assistant hwi response).getLast? =
          some ((hwi.getLast hne).1, response) := by
  have hgl : hwi.getLast? = some (hwi.getLast hne) := List.getLast?_eq_getLast hwi hne
  have hpos : 0 < hwi.length := List.length_pos.mpr hne
  have hrw : ∀ response : String, replace_last_assistant hwi response =
      hwi.dropLast ++ [((hwi.getLast hne).1, response)] := by
    intro response
    rw [replace_last_assistant, hgl]
    rfl
  constructor
  · rw [generate]
    rw [if_neg hmnt]
    have hfun : (fun response => hwi.dropLast ++ [(message, response)]) =
        replace_last_assistant hwi := by
      funext response
      rw [hrw response, hlast]
    rw [hfun]
  · intro response
    refine ⟨?_, ?_, ?_⟩
    · rw [hrw response]
      simp only [List.length_append, List.length_dropLast, List.length_cons,
        List.length_nil]
      omega
    · intro i hi
      rw [hrw response]
      rw [List.getElem?_append_left (by simp; omega)]
      rw [List.getElem?_dropLast, if_pos (by omega)]
    · rw [hrw response]
      exact List.getLast?_concat _

theorem generate_replaces_last_wit :
    (¬ 512 > MAX_MAX_NEW_TOKENS) ∧
      (([("hi", "old")].getLast (by decide)).1 = "hi") ∧
      (generate "hi" [("hi", "old")] 512 ["p1", "p2"] =
          some (["p1", "p2"].map (replace_last_assistant [("hi", "old")])) ∧
        ∀ response : String,
          (replace_last_assistant [("hi", "old")] response).length =
            [("hi", "old")].length ∧
          (∀ i : Nat, i + 1 < [("hi", "old")].length →
            (replace_last_assistant [("hi", "old")] response)[i]? =
              [("hi", "old")][i]?) ∧
          (replace_last_assistant [("hi", "old")] response).getLast? =
            some (([("hi", "old")].getLast (by decide)).1, response)) :=
  ⟨by decide, by decide,
   generate_replaces_last "hi" [("hi", "old")] 512 ["p1", "p2"]
     (by decide) (by decide) (by decide)⟩

/-- C4 (amended): when the token-length gate passes, the emptiness check of
`check_input_token_length` raises the empty-input error exactly for the
length-zero message: the source tests `len(message) <= 0` without trimming,
so every message of positive length — whitespace-only ones included —
passes the check. -/
theorem check_input_empty_iff (get_tok : String → List Turn → String → Nat)
    (message : String) (chat_history : List Turn) (system_prompt : String)
    (hlen : ¬ get_tok message chat_history system_prompt > MAX_INPUT_TOKEN_LENGTH) :
    check_input_token_length get_tok message chat_history system_prompt =
      if message.length = 0 then Except.error GrError.emptyInput
      else Except.ok () := by
  simp only [check_input_token_length]
  rw [if_neg hlen]
  by_cases h : message.length = 0
  · rw [if_pos (by omega), if_pos h]
  · rw [if_neg (by omega), if_neg h]

theorem check_input_empty_iff_wit :
    check_input_token_length (fun _ _ _ => 0) "a" [] "" =
      if ("a" : String).length = 0 then Except.error GrError.emptyInput
      else Except.ok () :=
  check_input_empty_iff (fun _ _ _ => 0) "a" [] "" (by decide)

/-- C4 counterexample: a whitespace-only message is blank after trimming
(all of its characters are whitespace) yet has positive length, so the
emptiness check of `check_input_token_length` passes instead of raising the
empty-input error. -/
theorem check_input_blank_cex :
    (" ").data.all Char.isWhitespace = true ∧ (" " : String) ≠ "" ∧
      check_input_token_length (fun _ _ _ => 0) " " [] "" = Except.ok () := by
  refine ⟨by decide, by decide, ?_⟩
  rfl

/-- C5: when validation raises, the `.success` gate skips the rest of the
submit chain, so the turn list and the identity list after the failed submit
equal their values before the call. -/
theorem submit_aborts_on_validation_error
    (get_tok : String → List Turn → String → Nat)
    (respond : String → List Turn → String) (gen : Nat → String)
    (system_prompt textbox : String) (history : List Turn)
    (uuid_list : List IdPair) (k : Nat) (e : GrError)
    (herr : check_input_token_length get_tok textbox history system_prompt =
      Except.error e) :
    (submit_pipeline get_tok respond gen system_prompt
        textbox history uuid_list k).2.2.1 = history ∧
      (submit_pipeline get_tok respond gen system_prompt
        textbox history uuid_list k).2.2.2.1 = uuid_list := by
  simp only [submit_pipeline, clear_and_save_textbox]
  rw [herr]
  exact ⟨rfl, rfl⟩

theorem submit_aborts_on_validation_error_wit :
    (submit_pipeline (fun _ _ _ => 5000) (fun _ _ => "resp") demo_gen "sys"
        "hi" [("a", "A")] [("u", "a1")] 0).2.2.1 = [("a", "A")] ∧
      (submit_pipeline (fun _ _ _ => 5000) (fun _ _ => "resp") demo_gen "sys"
        "hi" [("a", "A")] [("u", "a1")] 0).2.2.2.1 = [("u", "a1")] :=
  submit_aborts_on_validation_error (fun _ _ _ => 5000) (fun _ _ => "resp")
    demo_gen "sys" "hi" [("a", "A")] [("u", "a1")] 0 GrError.tooLong rfl

lemma head?_eq_headD_of_ne_nil {α : Type} (l : List α) (d : α) (h : l ≠ []) :
    l.head? = some (l.headD d) := by
  cases l with
  | nil => exact absurd rfl h
  | cons a l2 => rfl

lemma getLast?_eq_getLastD_of_ne_nil {α : Type} (l : List α) (d : α) (h : l ≠ []) :
    l.getLast? = some (l.getLastD d) := by
  obtain ⟨lf, b, hl⟩ := (List.eq_nil_or_concat l).resolve_left h
  rw [List.concat_eq_append] at hl
  subst hl
  rw [List.getLast?_concat, List.getLastD_concat]

/-- Full characterization of `output_log` on non-empty equal-length inputs:
the record produced is determined by the first pair, the last pair, the last
turn and (for multi-turn user records) the second-to-last pair. -/
lemma output_log_total (history : List Turn) (uuid_list : List IdPair)
    (hne : history ≠ []) (hlen : uuid_list.length = history.length) :
    output_log history uuid_list = some
      (if (uuid_list.getLastD ("", "")).2 = "" then
        if 2 ≤ history.length then
          ⟨(uuid_list.headD ("", "")).1, (uuid_list.dropLast.getLastD ("", "")).2,
            (uuid_list.getLastD ("", "")).1, "user", (history.getLastD ("", "")).1⟩
        else
          ⟨(uuid_list.headD ("", "")).1, (uuid_list.getLastD ("", "")).1,
            (uuid_list.getLastD ("", "")).1, "user", (history.getLastD ("", "")).1⟩
      else
        ⟨(uuid_list.headD ("", "")).1, (uuid_list.getLastD ("", "")).1,
          (uuid_list.getLastD ("", "")).2, "assistant",
          (history.getLastD ("", "")).2⟩) := by
  have hlne : uuid_list ≠ [] := by
    intro h
    apply hne
    rw [h] at hlen
    exact List.length_eq_zero.mp hlen.symm
  have hh : uuid_list.head? = some (uuid_list.headD ("", "")) :=
    head?_eq_headD_of_ne_nil uuid_list ("", "") hlne
  have hgm : history.getLast? = some (history.getLastD ("", "")) :=
    getLast?_eq_getLastD_of_ne_nil history ("", "") hne
  have hgu : uuid_list.getLast? = some (uuid_list.getLastD ("", "")) :=
    getLast?_eq_getLastD_of_ne_nil uuid_list ("", "") hlne
  simp only [output_log, hh, hgm, hgu]
  by_cases h1 : (uuid_list.getLastD ("", "")).2 = ""
  · simp only [if_pos h1]
    by_cases h2 : 2 ≤ history.length
    · have hdne : uuid_list.dropLast ≠ [] := by
        have hp : 0 < uuid_list.dropLast.length := by
          rw [List.length_dropLast]
          omega
        exact List.length_pos.mp hp
      have hgd : uuid_list.dropLast.getLast? =
          some (uuid_list.dropLast.getLastD ("", "")) :=
        getLast?_eq_getLastD_of_ne_nil uuid_list.dropLast ("", "") hdne
      simp only [if_pos h2, hgd]
    · simp only [if_neg h2]
  · simp only [if_neg h1]

/-- C6: for a non-empty turn list and an identity list of the same length,
the audit record built by `output_log` has the first pair's user id as its
tree id; its role is "user" exactly when the last pair's assistant id is
empty, and then it carries the last pair's user id, the last turn's user
message, and as parent the previous pair's assistant id (or its own user id
for a one-turn conversation); otherwise its role is "assistant" and it
carries the last pair's assistant id, the last turn's assistant message,
and the same pair's user id as parent. -/
theorem output_log_record_spec (history : List Turn) (uuid_list : List IdPair)
    (hne : history ≠ []) (hlen : uuid_list.length = history.length) :
    ∃ r : AuditRecord, output_log history uuid_list = some r ∧
      r.tree_uuid = (uuid_list.headD ("", "")).1 ∧
      ((r.role = "user") ↔ (uuid_list.getLastD ("", "")).2 = "") ∧
      ((uuid_list.getLastD ("", "")).2 = "" →
        r.record_uuid = (uuid_list.getLastD ("", "")).1 ∧
        r.message = (history.getLastD ("", "")).1 ∧
        (history.length = 1 → r.parent_uuid = (uuid_list.getLastD ("", "")).1) ∧
        (2 ≤ history.length →
          r.parent_uuid = (uuid_list.dropLast.getLastD ("", "")).2)) ∧
      ((uuid_list.getLastD ("", "")).2 ≠ "" →
        r.role = "assistant" ∧
        r.record_uuid = (uuid_list.getLastD ("", "")).2 ∧
        r.message = (history.getLastD ("", "")).2 ∧
        r.parent_uuid = (uuid_list.getLastD ("", "")).1) := by
  refine ⟨_, output_log_total history uuid_list hne hlen, ?_, ?_, ?_, ?_⟩
  · by_cases h1 : (uuid_list.getLastD ("", "")).2 = ""
    · rw [if_pos h1]
      by_cases h2 : 2 ≤ history.length
      · rw [if_pos h2]
      · rw [if_neg h2]
    · rw [if_neg h1]
  · by_cases h1 : (uuid_list.getLastD ("", "")).2 = ""
    · rw [if_pos h1]
      by_cases h2 : 2 ≤ history.length
      · rw [if_pos h2]
        exact iff_of_true rfl h1
      · rw [if_neg h2]
        exact iff_of_true rfl h1
    · rw [if_neg h1]
      exact iff_of_false (show ¬ ("assistant" : String) = "user" by decide) h1
  · intro h1
    rw [if_pos h1]
    by_cases h2 : 2 ≤ history.length
    · rw [if_pos h2]
      exact ⟨rfl, rfl, fun hone => absurd hone (by omega), fun _ => rfl⟩
    · rw [if_neg h2]
      exact ⟨rfl, rfl, fun _ => rfl, fun hc => absurd hc h2⟩
  · intro h1
    rw [if_neg h1]
    exact ⟨rfl, rfl, rfl, rfl⟩

theorem output_log_record_spec_wit :
    ∃ r : AuditRecord, output_log [("a", "A")] [("u", "a1")] = some r ∧
      r.tree_uuid = ([("u", "a1")].headD ("", "")).1 ∧
      ((r.role = "user") ↔ ([("u", "a1")].getLastD ("", "")).2 = "") ∧
      (([("u", "a1")].getLastD ("", "")).2 = "" →
        r.record_uuid = ([("u", "a1")].getLastD ("", "")).1 ∧
        r.message = ([("a", "A")].getLastD ("", "")).1 ∧
        ([("a", "A")].length = 1 →
          r.parent_uuid = ([("u", "a1")].getLastD ("", "")).1) ∧
        (2 ≤ [("a", "A")].length →
          r.parent_uuid = ([("u", "a1")].dropLast.getLastD ("", "")).2)) ∧
      (([("u", "a1")].getLastD ("", "")).2 ≠ "" →
        r.role = "assistant" ∧
        r.record_uuid = ([("u", "a1")].getLastD ("", "")).2 ∧
        r.message = ([("a", "A")].getLastD ("", "")).2 ∧
        r.parent_uuid = ([("u", "a1")].getLastD ("", "")).1) :=
  output_log_record_spec [("a", "A")] [("u", "a1")] (by decide) (by decide)

/-- C10: `output_log` requires non-empty inputs: with an empty history or an
empty identity list the unguarded indexing fails before any record is built
(`none`, the embedded `IndexError`), while for non-empty lists of equal
length it always produces a record. -/
theorem output_log_index_safety (history : List Turn) (uuid_list : List IdPair) :
    ((history = [] ∨ uuid_list = []) → output_log history uuid_list = none) ∧
    (history ≠ [] → uuid_list.length = history.length →
      ∃ r : AuditRecord, output_log history uuid_list = some r) := by
  constructor
  · rintro (h | h)
    · subst h
      cases huu : uuid_list.head? with
      | none => simp [output_log, huu]
      | some fp => simp [output_log, huu]
    · subst h
      simp [output_log]
  · intro hne hlen
    exact ⟨_, output_log_total history uuid_list hne hlen⟩

theorem output_log_index_safety_wit :
    output_log [] [("u", "a1")] = none ∧
      ∃ r : AuditRecord, output_log [("a", "A")] [("u", "a1")] = some r :=
  ⟨(output_log_index_safety [] [("u", "a1")]).1 (Or.inl rfl),
   (output_log_index_safety [("a", "A")] [("u", "a1")]).2 (by decide) (by decide)⟩
